import Mathlib

/-!
Verification of the tree-building core of the music-library visualizer
(`src/src/App.tsx`). The only logic-bearing function is `buildMindMap`,
which folds an ordered sequence of flat track records into a rooted tree
(Artist → Track → {Year, Genre×N}).

Modelling conventions (shallow embedding of the TypeScript source):
- The `Node` record of the source carries cyclic references: every node
  stores a `parent` pointer, and year/genre nodes store their owning track
  node inside their `children` array. Cycles cannot be represented by a
  Lean inductive value, so non-owning references are modelled by the node
  identity string (the spec itself describes them as non-owning
  back-references, keyed by identity). Owning tree edges stay in
  `children : List Node`; the back-references of year/genre nodes are kept
  in `backChildren : List String`, and `parent : Option String` holds the
  identity of the parent node (none for the root).
- The `artistMap` object used for artist deduplication, whose entries
  alias the artist nodes pushed into the root, is modelled as an ordered
  association list from artist name to the list of that artist node's
  track children; insertion order equals the push order into
  `root.children`, and in-place pushes become functional updates.
  Because `artistMap` is a plain JavaScript object, the lookup
  `artistMap[track.Artist]` also consults `Object.prototype`: for an
  artist name that is an inherited property (`toString`, `constructor`,
  `__proto__`, ...) it returns a truthy value that is not a Node and the
  loop body throws a TypeError. `stepJS`, `runLoopJS` and
  `buildMindMapJS` model this error path faithfully; `step` and
  `buildMindMap` are the pure model, which agrees with the faithful one
  on every input whose artist names avoid the inherited keys
  (`buildMindMapJS_agrees`).
- JavaScript `String.prototype.split` with the single-character separator
  used by the source is modelled by `jsSplit`, recursing over the list of
  characters of the string.
-/

/-- Kinds of tree nodes, from the `type` field of the source `Node`
interface: artist, track, year or genre. -/
inductive NodeType where
  | artist
  | track
  | year
  | genre
  deriving DecidableEq

/-- One tree node, from the `Node` interface of the source: identity
string, label, kind, owned children, back-references held in the
`children` array of year/genre nodes (by identity), and the parent
reference (by identity, absent for the root). -/
inductive Node where
  | mk (id : String) (label : String) (type : NodeType) (children : List Node)
      (backChildren : List String) (parent : Option String)

/-- Identity string of a node. -/
def Node.id : Node → String
  | .mk i _ _ _ _ _ => i

/-- Label of a node. -/
def Node.label : Node → String
  | .mk _ l _ _ _ _ => l

/-- Kind of a node. -/
def Node.type : Node → NodeType
  | .mk _ _ t _ _ _ => t

/-- Owned children of a node. -/
def Node.children : Node → List Node
  | .mk _ _ _ cs _ _ => cs

/-- Back-references stored in the `children` array of year/genre nodes,
modelled by identity string. -/
def Node.backChildren : Node → List String
  | .mk _ _ _ _ bs _ => bs

/-- Parent reference of a node, modelled by identity string. -/
def Node.parent : Node → Option String
  | .mk _ _ _ _ _ p => p

mutual

/-- Decidable equality on nodes, by mutual recursion with lists of nodes. -/
def Node.decEq : (a b : Node) → Decidable (a = b)
  | .mk i1 l1 t1 cs1 b1 p1, .mk i2 l2 t2 cs2 b2 p2 =>
    if hi : i1 = i2 then
      if hl : l1 = l2 then
        if ht : t1 = t2 then
          match Node.decEqList cs1 cs2 with
          | isTrue hc =>
            if hb : b1 = b2 then
              if hp : p1 = p2 then
                isTrue (by rw [hi, hl, ht, hc, hb, hp])
              else isFalse (fun h => by injection h; contradiction)
            else isFalse (fun h => by injection h; contradiction)
          | isFalse hc => isFalse (fun h => by injection h; contradiction)
        else isFalse (fun h => by injection h; contradiction)
      else isFalse (fun h => by injection h; contradiction)
    else isFalse (fun h => by injection h; contradiction)

/-- Decidable equality on lists of nodes. -/
def Node.decEqList : (a b : List Node) → Decidable (a = b)
  | [], [] => isTrue rfl
  | [], _ :: _ => isFalse (fun h => by injection h)
  | _ :: _, [] => isFalse (fun h => by injection h)
  | x :: xs, y :: ys =>
    match Node.decEq x y, Node.decEqList xs ys with
    | isTrue h1, isTrue h2 => isTrue (by rw [h1, h2])
    | isFalse h1, _ => isFalse (fun h => by injection h; contradiction)
    | _, isFalse h2 => isFalse (fun h => by injection h; contradiction)

end

instance : DecidableEq Node := Node.decEq

/-- One flat input record, from the `Track` interface of the source:
artist name, track name, year and the semicolon-separated genre field, all
plain text. -/
structure Track where
  Artist : String
  TrackName : String
  Year : String
  Genre : String
  deriving DecidableEq

/-- Splits a list of characters at every occurrence of the separator.
The empty list yields one empty token, matching JavaScript split. -/
def splitChars (sep : Char) : List Char → List (List Char)
  | [] => [[]]
  | x :: xs =>
    match splitChars sep xs with
    | [] => [[x]]
    | y :: ys => if x = sep then [] :: y :: ys else (x :: y) :: ys

/-- JavaScript `String.prototype.split` with a single-character separator,
as used by the source on the genre field. Tokens are verbatim: no
trimming, no deduplication, and an empty string yields one empty token. -/
def jsSplit (sep : Char) (s : String) : List String :=
  (splitChars sep s.data).map String.mk

/-- Identity string of the track node built for a record, from the
template literal of the source: artist, dash, track name. -/
def trackIdOf (t : Track) : String :=
  t.Artist ++ "-" ++ t.TrackName

/-- Year node built for a record (source lines 61-67): identity is
artist-track-year, the `children` array holds the back-reference to the
owning track node, and the parent is the track node. -/
def yearNodeOf (t : Track) : Node :=
  Node.mk (trackIdOf t ++ "-" ++ t.Year) t.Year NodeType.year []
    [trackIdOf t] (some (trackIdOf t))

/-- Genre node built for one genre token of a record (source lines
69-75): identity is artist-track-genre, the `children` array holds the
back-reference to the owning track node, and the parent is the track
node. -/
def genreNodeOf (t : Track) (g : String) : Node :=
  Node.mk (trackIdOf t ++ "-" ++ g) g NodeType.genre []
    [trackIdOf t] (some (trackIdOf t))

/-- Track node built for a record (source lines 51-77): after the loop
body finishes, its children are the year node followed by one genre node
per token of the genre field split on the semicolon, in split order. Its
parent is the artist node, whose identity is the artist name. -/
def mkTrackNode (t : Track) : Node :=
  Node.mk (trackIdOf t) t.TrackName NodeType.track
    (yearNodeOf t :: (jsSplit ';' t.Genre).map (genreNodeOf t))
    [] (some t.Artist)

/-- One iteration of the `tracks.forEach` loop of the source, acting on
the artist map (source lines 37-78). A seen artist name gets the new
track node appended to its entry; an unseen one appends a fresh entry,
which models pushing a fresh artist node into `root.children` and into
`artistMap`. This is the behavior for artist names that are not
inherited properties of `Object.prototype`; `stepJS` models the full
plain-object lookup including the inherited-key error path. -/
def step (acc : List (String × List Node)) (t : Track) : List (String × List Node) :=
  if acc.any (fun p => p.1 == t.Artist) then
    acc.map (fun p => if p.1 == t.Artist then (p.1, p.2 ++ [mkTrackNode t]) else p)
  else
    acc ++ [(t.Artist, [mkTrackNode t])]

/-- The core operation of the source (lines 33-81): folds the record
sequence through `step` and assembles the root. Artist nodes have the
artist name as identity and label, carry their accumulated track children,
and point back to the root; the root is the constant synthetic node. -/
def buildMindMap (tracks : List Track) : Node :=
  Node.mk "root" "Music Library" NodeType.artist
    ((tracks.foldl step []).map
      (fun p => Node.mk p.1 p.1 NodeType.artist p.2 [] (some "root")))
    [] none

/-- Property names a plain object literal inherits from
`Object.prototype` in standard JavaScript engines; reading any of them
from the empty object yields a truthy value that is not a Node. -/
def protoProps : List String :=
  ["constructor", "hasOwnProperty", "isPrototypeOf", "propertyIsEnumerable",
   "toLocaleString", "toString", "valueOf",
   "__defineGetter__", "__defineSetter__", "__lookupGetter__", "__lookupSetter__",
   "__proto__"]

/-- One iteration of the loop under the full JavaScript semantics of the
plain object `artistMap`. The lookup `artistMap[track.Artist]` finds own
entries first; with no own entry, a key inherited from `Object.prototype`
yields a truthy non-Node value, so the guard at line 46 skips the create
branch and `artistNode.children.push(trackNode)` at line 59 reads the
`children` field of the inherited value, which is undefined: the call
throws a TypeError. Own entries for inherited keys can never be created,
because the assignment at line 48 is only reached when the lookup was
falsy. -/
def stepJS (acc : List (String × List Node)) (t : Track) :
    Except String (List (String × List Node)) :=
  match acc.find? (fun p => p.1 == t.Artist) with
  | some _ =>
    Except.ok (acc.map (fun p => if p.1 == t.Artist then (p.1, p.2 ++ [mkTrackNode t]) else p))
  | none =>
    if t.Artist ∈ protoProps then
      Except.error "TypeError: Cannot read properties of undefined (reading push)"
    else
      Except.ok (acc ++ [(t.Artist, [mkTrackNode t])])

/-- The `tracks.forEach` loop under the full JavaScript semantics: a
thrown TypeError aborts the remaining iterations and propagates out. -/
def runLoopJS : List (String × List Node) → List Track →
    Except String (List (String × List Node))
  | acc, [] => Except.ok acc
  | acc, t :: ts =>
    match stepJS acc t with
    | Except.ok acc2 => runLoopJS acc2 ts
    | Except.error e => Except.error e

/-- The builder under the full JavaScript semantics of the plain-object
lookup: either the finished tree, or the TypeError thrown by the loop. -/
def buildMindMapJS (tracks : List Track) : Except String Node :=
  match runLoopJS [] tracks with
  | Except.ok entries =>
    Except.ok (Node.mk "root" "Music Library" NodeType.artist
      (entries.map (fun p => Node.mk p.1 p.1 NodeType.artist p.2 [] (some "root")))
      [] none)
  | Except.error e => Except.error e

mutual

/-- Number of nodes of a given kind in a tree (owned edges only). -/
def countKind (k : NodeType) : Node → Nat
  | .mk _ _ t cs _ _ => (if t = k then 1 else 0) + countKindList k cs

/-- Number of nodes of a given kind in a forest. -/
def countKindList (k : NodeType) : List Node → Nat
  | [] => 0
  | c :: cs => countKind k c + countKindList k cs

end

mutual

/-- All nodes of a tree, by preorder traversal of the owned edges. -/
def Node.allNodes : Node → List Node
  | .mk i l t cs b p => Node.mk i l t cs b p :: allNodesList cs

/-- All nodes of a forest. -/
def allNodesList : List Node → List Node
  | [] => []
  | c :: cs => c.allNodes ++ allNodesList cs

end

/-- Appends an element to an accumulator unless already present. -/
def addDistinct (acc : List String) (a : String) : List String :=
  if a ∈ acc then acc else acc ++ [a]

/-- The distinct elements of a list, in order of first appearance. -/
def distinctInOrder (l : List String) : List String :=
  l.foldl addDistinct []

/-- Closed form of the artist map after folding a record sequence: one
entry per distinct artist name in order of first appearance, holding the
track nodes of exactly the records with that artist name, in input
order. -/
def entriesFor (ts : List Track) : List (String × List Node) :=
  (distinctInOrder (ts.map Track.Artist)).map
    (fun a => (a, (ts.filter (fun tr => tr.Artist == a)).map mkTrackNode))

/-- Membership in the fold computing distinct elements: an element occurs
in the result exactly when it occurs in the accumulator or the list. -/
lemma mem_foldl_addDistinct (l : List String) (init : List String) (a : String) :
    a ∈ l.foldl addDistinct init ↔ a ∈ init ∨ a ∈ l := by
  induction l generalizing init with
  | nil => simp
  | cons b l ih =>
    rw [List.foldl_cons, ih]
    unfold addDistinct
    by_cases hb : b ∈ init
    · rw [if_pos hb]
      constructor
      · rintro (h | h)
        · exact Or.inl h
        · exact Or.inr (List.mem_cons_of_mem b h)
      · rintro (h | h)
        · exact Or.inl h
        · rcases List.mem_cons.mp h with rfl | h
          · exact Or.inl hb
          · exact Or.inr h
    · rw [if_neg hb]
      simp only [List.mem_append, List.mem_singleton, List.mem_cons]
      tauto

/-- The fold computing distinct elements preserves the no-duplicates
invariant of its accumulator. -/
lemma nodup_foldl_addDistinct (l : List String) (init : List String)
    (h : init.Nodup) : (l.foldl addDistinct init).Nodup := by
  induction l generalizing init with
  | nil => exact h
  | cons b l ih =>
    rw [List.foldl_cons]
    apply ih
    unfold addDistinct
    by_cases hb : b ∈ init
    · rwa [if_pos hb]
    · rw [if_neg hb]
      simp [List.nodup_append, h, hb]

/-- An element occurs among the distinct elements exactly when it occurs
in the list. -/
lemma mem_distinctInOrder (l : List String) (a : String) :
    a ∈ distinctInOrder l ↔ a ∈ l := by
  unfold distinctInOrder
  rw [mem_foldl_addDistinct]
  simp

/-- The distinct elements of a list contain no duplicates. -/
lemma nodup_distinctInOrder (l : List String) : (distinctInOrder l).Nodup :=
  nodup_foldl_addDistinct l [] List.nodup_nil

/-- Appending one element to the list extends the distinct elements by
one fold step. -/
lemma distinctInOrder_append_singleton (l : List String) (a : String) :
    distinctInOrder (l ++ [a]) = addDistinct (distinctInOrder l) a := by
  unfold distinctInOrder
  rw [List.foldl_append]
  rfl

/-- Records of an unseen artist name do not occur in the list. -/
lemma filter_artist_eq_nil (ts : List Track) (a : String)
    (h : a ∉ ts.map Track.Artist) :
    ts.filter (fun tr => tr.Artist == a) = [] := by
  rw [List.filter_eq_nil_iff]
  intro tr htr
  simp only [beq_iff_eq]
  rintro rfl
  exact h (List.mem_map_of_mem Track.Artist htr)

/-- One loop iteration applied to the closed form of the artist map for a
processed prefix yields the closed form for the prefix extended by the
incoming record. -/
lemma step_entriesFor (hist : List Track) (t : Track) :
    step (entriesFor hist) t = entriesFor (hist ++ [t]) := by
  have hmapT : (hist ++ [t]).map Track.Artist = hist.map Track.Artist ++ [t.Artist] := by
    simp
  by_cases hseen : t.Artist ∈ hist.map Track.Artist
  · have hany : (entriesFor hist).any (fun p => p.1 == t.Artist) = true := by
      rw [List.any_eq_true]
      refine ⟨(t.Artist, (hist.filter (fun tr => tr.Artist == t.Artist)).map mkTrackNode), ?_, ?_⟩
      · unfold entriesFor
        exact List.mem_map_of_mem _ ((mem_distinctInOrder _ _).mpr hseen)
      · simp
    unfold step
    rw [if_pos hany]
    unfold entriesFor
    rw [hmapT, distinctInOrder_append_singleton]
    unfold addDistinct
    rw [if_pos ((mem_distinctInOrder _ _).mpr hseen)]
    rw [List.map_map]
    apply List.map_congr_left
    intro a _
    simp only [Function.comp_apply]
    by_cases hat : a = t.Artist
    · subst hat
      simp [List.filter_append, List.filter_cons]
    · have h1 : (a == t.Artist) = false := by
        simp [hat]
      have h2 : (t.Artist == a) = false := by
        simp only [beq_eq_false_iff_ne, ne_eq]
        intro h
        exact hat h.symm
      simp [h1, List.filter_append, List.filter_cons, h2]
  · have hany : (entriesFor hist).any (fun p => p.1 == t.Artist) = false := by
      rw [List.any_eq_false]
      rintro ⟨a, cs⟩ hp
      unfold entriesFor at hp
      rcases List.mem_map.mp hp with ⟨b, hb, heq⟩
      have hba : b = a := congrArg Prod.fst heq
      subst hba
      have : b ∈ hist.map Track.Artist := (mem_distinctInOrder _ _).mp hb
      simp only [beq_iff_eq]
      rintro rfl
      exact hseen this
    unfold step
    rw [if_neg (by simp [hany])]
    unfold entriesFor
    rw [hmapT, distinctInOrder_append_singleton]
    unfold addDistinct
    rw [if_neg (fun h => hseen ((mem_distinctInOrder _ _).mp h))]
    rw [List.map_append]
    congr 1
    · apply List.map_congr_left
      intro a ha
      have haa : a ∈ hist.map Track.Artist := (mem_distinctInOrder _ _).mp ha
      have hat : (t.Artist == a) = false := by
        simp only [beq_eq_false_iff_ne, ne_eq]
        rintro rfl
        exact hseen haa
      simp [List.filter_append, List.filter_cons, hat]
    · simp [List.filter_append, List.filter_cons,
        filter_artist_eq_nil hist t.Artist hseen]

/-- Folding the loop body over a suffix of records extends the closed
form of the artist map accordingly. -/
lemma foldl_step_entriesFor (ts : List Track) (hist : List Track) :
    ts.foldl step (entriesFor hist) = entriesFor (hist ++ ts) := by
  induction ts generalizing hist with
  | nil => simp
  | cons t ts ih =>
    rw [List.foldl_cons, step_entriesFor, ih]
    simp

/-- Closed form of the tree produced by the builder: the root carries one
artist node per distinct artist name in order of first appearance, each
holding the track nodes of exactly its records in input order. -/
lemma buildMindMap_eq (ts : List Track) :
    buildMindMap ts = Node.mk "root" "Music Library" NodeType.artist
      ((distinctInOrder (ts.map Track.Artist)).map (fun a =>
        Node.mk a a NodeType.artist
          ((ts.filter (fun tr => tr.Artist == a)).map mkTrackNode) [] (some "root")))
      [] none := by
  unfold buildMindMap
  have h : ts.foldl step [] = entriesFor ts := by
    have h0 : entriesFor [] = [] := rfl
    have := foldl_step_entriesFor ts []
    rw [h0] at this
    simpa using this
  rw [h]
  unfold entriesFor
  rw [List.map_map]
  rfl

/-- Genre nodes contribute no track nodes. -/
lemma countKindList_map_genreNodeOf (t : Track) (gs : List String) :
    countKindList NodeType.track (gs.map (genreNodeOf t)) = 0 := by
  induction gs with
  | nil => rfl
  | cons g gs ih =>
    simp only [List.map_cons, countKindList, ih]
    rfl

/-- Every track node built from a record contains exactly one node of
kind track, namely itself. -/
lemma countKind_track_mkTrackNode (t : Track) :
    countKind NodeType.track (mkTrackNode t) = 1 := by
  unfold mkTrackNode
  simp only [countKind, countKindList]
  rw [countKindList_map_genreNodeOf]
  rfl

/-- A list of track nodes built from records contains one track node per
record. -/
lemma countKindList_map_mkTrackNode (l : List Track) :
    countKindList NodeType.track (l.map mkTrackNode) = l.length := by
  induction l with
  | nil => rfl
  | cons t l ih =>
    simp only [List.map_cons, countKindList, countKind_track_mkTrackNode, ih,
      List.length_cons]
    omega

/-- Track nodes in the forest of artist nodes, counted per artist. -/
lemma countKindList_artistForest (ts : List Track) (keys : List String) :
    countKindList NodeType.track (keys.map (fun a =>
      Node.mk a a NodeType.artist
        ((ts.filter (fun tr => tr.Artist == a)).map mkTrackNode) [] (some "root"))) =
    (keys.map (fun a => (ts.filter (fun tr => tr.Artist == a)).length)).sum := by
  induction keys with
  | nil => rfl
  | cons b keys ih =>
    simp only [List.map_cons, countKindList, countKind, ih,
      countKindList_map_mkTrackNode, List.sum_cons]
    simp

/-- The indicator sum over a list missing the element is zero. -/
lemma sum_indicator_eq_zero (keys : List String) (x : String) (h : x ∉ keys) :
    (keys.map (fun a => if x == a then 1 else 0)).sum = 0 := by
  induction keys with
  | nil => rfl
  | cons b keys ih =>
    have hxb : ¬ x = b := by
      rintro rfl
      exact h (List.mem_cons_self x keys)
    have ih' := ih (fun hx => h (List.mem_cons_of_mem b hx))
    simp at ih'
    simp [hxb, ih']

/-- The indicator sum over a duplicate-free list containing the element
is one. -/
lemma sum_indicator_eq_one (keys : List String) (x : String)
    (hnd : keys.Nodup) (hx : x ∈ keys) :
    (keys.map (fun a => if x == a then 1 else 0)).sum = 1 := by
  induction keys with
  | nil => cases hx
  | cons b keys ih =>
    rcases List.nodup_cons.mp hnd with ⟨hb, hnd'⟩
    by_cases hxb : x = b
    · subst hxb
      rw [List.map_cons, List.sum_cons, sum_indicator_eq_zero keys x hb]
      simp
    · have hxk : x ∈ keys := by
        rcases List.mem_cons.mp hx with rfl | h
        · exact absurd rfl hxb
        · exact h
      have ih' := ih hnd' hxk
      simp at ih'
      simp [hxb, ih']

/-- Partition of a record list by artist name over a duplicate-free key
list covering every record: the filtered sublists account for every
record exactly once. -/
lemma sum_filter_length (keys : List String) (l : List Track)
    (hnd : keys.Nodup) (hall : ∀ tr ∈ l, tr.Artist ∈ keys) :
    (keys.map (fun a => (l.filter (fun tr => tr.Artist == a)).length)).sum = l.length := by
  induction l with
  | nil => simp
  | cons tr l ih =>
    have hfun : (fun a => ((tr :: l).filter (fun x => x.Artist == a)).length)
        = fun a => (if tr.Artist == a then 1 else 0)
            + (l.filter (fun x => x.Artist == a)).length := by
      funext a
      rw [List.filter_cons]
      by_cases h : tr.Artist = a
      · simp [h, Nat.add_comm]
      · simp [h]
    rw [hfun, List.sum_map_add]
    rw [sum_indicator_eq_one keys tr.Artist hnd (hall tr (List.mem_cons_self tr l))]
    rw [ih (fun x hx => hall x (List.mem_cons_of_mem tr hx))]
    simp [Nat.add_comm]

/-- On an artist name that is not an inherited key, the faithful loop
body succeeds and computes exactly what the pure loop body computes. -/
lemma stepJS_agrees (acc : List (String × List Node)) (t : Track)
    (h : t.Artist ∉ protoProps) : stepJS acc t = Except.ok (step acc t) := by
  unfold stepJS step
  cases hfind : acc.find? (fun p => p.1 == t.Artist) with
  | some q =>
    have hp := List.find?_some hfind
    have hm := List.mem_of_find?_eq_some hfind
    have hany : (acc.any (fun p => p.1 == t.Artist)) = true :=
      List.any_eq_true.mpr ⟨q, hm, hp⟩
    rw [if_pos hany]
  | none =>
    have hany : (acc.any (fun p => p.1 == t.Artist)) = false := by
      rw [List.any_eq_false]
      intro p hp
      have := List.find?_eq_none.mp hfind p hp
      simpa using this
    rw [if_neg h, if_neg (by simp [hany])]

/-- On a record sequence whose artist names avoid the inherited keys,
the faithful loop succeeds and computes the pure fold. -/
lemma runLoopJS_agrees (ts : List Track) (acc : List (String × List Node))
    (h : ∀ tr ∈ ts, tr.Artist ∉ protoProps) :
    runLoopJS acc ts = Except.ok (ts.foldl step acc) := by
  induction ts generalizing acc with
  | nil => rfl
  | cons t ts ih =>
    have hs := stepJS_agrees acc t (h t (List.mem_cons_self t ts))
    simp only [runLoopJS, hs, List.foldl_cons]
    exact ih (step acc t) (fun tr htr => h tr (List.mem_cons_of_mem t htr))

/-- On inputs whose artist names avoid the keys inherited from
`Object.prototype`, the faithful builder returns the pure tree. -/
lemma buildMindMapJS_agrees (ts : List Track)
    (h : ∀ tr ∈ ts, tr.Artist ∉ protoProps) :
    buildMindMapJS ts = Except.ok (buildMindMap ts) := by
  unfold buildMindMapJS buildMindMap
  rw [runLoopJS_agrees ts [] h]

/-- C1: for every input sequence of records, the root returned by
`buildMindMap` has exactly one child per distinct artist name (labels are
duplicate-free and range over exactly the artist names of the input), the
children appear in order of first appearance of each artist name, and
every record with an already-seen artist name is attached under that
artist name's existing node (the artist node for a name holds the track
nodes of exactly the records bearing that name, in input order) rather
than creating a new root child. -/
theorem C1_root_artist_children (ts : List Track) :
    (buildMindMap ts).children.map Node.label = distinctInOrder (ts.map Track.Artist)
    ∧ ((buildMindMap ts).children.map Node.label).Nodup
    ∧ (∀ a : String, a ∈ (buildMindMap ts).children.map Node.label ↔ a ∈ ts.map Track.Artist)
    ∧ (buildMindMap ts).children =
        (distinctInOrder (ts.map Track.Artist)).map (fun a =>
          Node.mk a a NodeType.artist
            ((ts.filter (fun tr => tr.Artist == a)).map mkTrackNode) [] (some "root")) := by
  have hch : (buildMindMap ts).children =
      (distinctInOrder (ts.map Track.Artist)).map (fun a =>
        Node.mk a a NodeType.artist
          ((ts.filter (fun tr => tr.Artist == a)).map mkTrackNode) [] (some "root")) := by
    rw [buildMindMap_eq]
    rfl
  have hlab : (buildMindMap ts).children.map Node.label
      = distinctInOrder (ts.map Track.Artist) := by
    rw [hch, List.map_map]
    have hc : (Node.label ∘ fun a =>
        Node.mk a a NodeType.artist
          ((ts.filter (fun tr => tr.Artist == a)).map mkTrackNode) [] (some "root"))
        = fun a => a := by
      funext a
      rfl
    rw [hc]
    simp
  refine ⟨hlab, ?_, ?_, hch⟩
  · rw [hlab]
    exact nodup_distinctInOrder _
  · intro a
    rw [hlab]
    exact mem_distinctInOrder _ a

/-- C2: for every input sequence, the total number of track nodes in the
tree returned by `buildMindMap` equals the number of input records; track
nodes are never merged or deduplicated. -/
theorem C2_track_node_count (ts : List Track) :
    countKind NodeType.track (buildMindMap ts) = ts.length := by
  rw [buildMindMap_eq]
  simp only [countKind]
  rw [countKindList_artistForest]
  have h := sum_filter_length (distinctInOrder (ts.map Track.Artist)) ts
    (nodup_distinctInOrder _)
    (fun tr htr => (mem_distinctInOrder _ _).mpr (List.mem_map_of_mem Track.Artist htr))
  rw [h]
  simp

/-- C3: every track node in the tree returned by `buildMindMap` comes
from a record of the input, and has exactly 1 + k children where k is the
number of tokens of the record's genre field split on the semicolon with
no trimming or deduplication: the year node first, then one genre node
per token in split order; an empty genre field yields the single empty
token. -/
theorem C3_track_node_children (ts : List Track) (a n : Node)
    (ha : a ∈ (buildMindMap ts).children) (hn : n ∈ a.children) :
    ∃ t, t ∈ ts ∧ n = mkTrackNode t
      ∧ n.children = yearNodeOf t :: (jsSplit ';' t.Genre).map (genreNodeOf t)
      ∧ n.children.length = 1 + (jsSplit ';' t.Genre).length
      ∧ (t.Genre = "" → jsSplit ';' t.Genre = [""]) := by
  rw [buildMindMap_eq] at ha
  simp only [Node.children] at ha
  rcases List.mem_map.mp ha with ⟨key, hkey, rfl⟩
  simp only [Node.children] at hn
  rcases List.mem_map.mp hn with ⟨t, ht, rfl⟩
  refine ⟨t, List.mem_of_mem_filter ht, rfl, rfl, ?_, ?_⟩
  · simp [mkTrackNode, Node.children, Nat.add_comm]
  · intro hg
    rw [hg]
    rfl

/-- Record used to instantiate universally quantified claims. -/
def wRecord : Track := ⟨"A", "S", "1999", "Rock;Pop"⟩

/-- Witness for C3 at a concrete one-record input. -/
theorem C3_witness :
    ∃ t, t ∈ [wRecord] ∧ mkTrackNode wRecord = mkTrackNode t
      ∧ (mkTrackNode wRecord).children = yearNodeOf t :: (jsSplit ';' t.Genre).map (genreNodeOf t)
      ∧ (mkTrackNode wRecord).children.length = 1 + (jsSplit ';' t.Genre).length
      ∧ (t.Genre = "" → jsSplit ';' t.Genre = [""]) :=
  C3_track_node_children [wRecord]
    (Node.mk "A" "A" NodeType.artist [mkTrackNode wRecord] [] (some "root"))
    (mkTrackNode wRecord) (by decide) (by decide)

/-- C4: `buildMindMap` is deterministic; two calls on the same input
sequence produce trees that are equal, hence identical in shape, labels,
kinds, sibling order and identity strings. -/
theorem C4_deterministic (ts1 ts2 : List Track) (h : ts1 = ts2) :
    buildMindMap ts1 = buildMindMap ts2 := by
  rw [h]

/-- Witness for C4 at a concrete input. -/
theorem C4_witness : buildMindMap [wRecord] = buildMindMap [wRecord] :=
  C4_deterministic [wRecord] [wRecord] rfl

/-- C5: identity strings are derived only from path labels: artist nodes
carry the artist name itself, track nodes artist-track (with no
per-record sequence number), year nodes artist-track-year, genre nodes
artist-track-token; consequently two records agreeing on artist and track
name yield track nodes with identical identity strings. -/
theorem C5_identity_strings (ts : List Track) (t t' : Track)
    (h1 : t'.Artist = t.Artist) (h2 : t'.TrackName = t.TrackName) :
    (buildMindMap ts).children.map Node.id = distinctInOrder (ts.map Track.Artist)
    ∧ (mkTrackNode t).id = t.Artist ++ "-" ++ t.TrackName
    ∧ (yearNodeOf t).id = t.Artist ++ "-" ++ t.TrackName ++ "-" ++ t.Year
    ∧ (∀ g : String, (genreNodeOf t g).id = t.Artist ++ "-" ++ t.TrackName ++ "-" ++ g)
    ∧ (mkTrackNode t').id = (mkTrackNode t).id := by
  refine ⟨?_, rfl, rfl, fun g => rfl, ?_⟩
  · rw [buildMindMap_eq]
    simp only [Node.children]
    rw [List.map_map]
    have hc : (Node.id ∘ fun a =>
        Node.mk a a NodeType.artist
          ((ts.filter (fun tr => tr.Artist == a)).map mkTrackNode) [] (some "root"))
        = fun a => a := by
      funext a
      rfl
    rw [hc]
    simp
  · simp [mkTrackNode, Node.id, trackIdOf, h1, h2]

/-- First record of the duplicate artist-track pair. -/
def dupTrackA : Track := ⟨"A", "B", "1970", "Rock"⟩

/-- Second record of the duplicate artist-track pair: same artist and
track name, different year and genre. -/
def dupTrackB : Track := ⟨"A", "B", "1971", "Jazz"⟩

/-- Witness for C5 at concrete records sharing artist and track name. -/
theorem C5_witness :
    (buildMindMap []).children.map Node.id = distinctInOrder (([] : List Track).map Track.Artist)
    ∧ (mkTrackNode dupTrackA).id = dupTrackA.Artist ++ "-" ++ dupTrackA.TrackName
    ∧ (yearNodeOf dupTrackA).id
        = dupTrackA.Artist ++ "-" ++ dupTrackA.TrackName ++ "-" ++ dupTrackA.Year
    ∧ (∀ g : String, (genreNodeOf dupTrackA g).id
        = dupTrackA.Artist ++ "-" ++ dupTrackA.TrackName ++ "-" ++ g)
    ∧ (mkTrackNode dupTrackB).id = (mkTrackNode dupTrackA).id :=
  C5_identity_strings [] dupTrackA dupTrackB (by decide) (by decide)

/-- C6 counterexample: identity strings are not unique within the whole
tree. On the two-record input repeating the artist-track pair, the two
track nodes are distinct nodes of the tree (their year children differ)
yet carry the same identity string. -/
theorem C6_counterexample :
    mkTrackNode dupTrackA ∈ (buildMindMap [dupTrackA, dupTrackB]).allNodes
    ∧ mkTrackNode dupTrackB ∈ (buildMindMap [dupTrackA, dupTrackB]).allNodes
    ∧ mkTrackNode dupTrackA ≠ mkTrackNode dupTrackB
    ∧ (mkTrackNode dupTrackA).id = (mkTrackNode dupTrackB).id := by
  decide

/-- C6 as amended: identity strings are unique among the root's children
(artist nodes carry the pairwise distinct artist names); identity strings
of deeper nodes may collide. -/
theorem C6_amended_root_child_ids_nodup (ts : List Track) :
    ((buildMindMap ts).children.map Node.id).Nodup := by
  rw [buildMindMap_eq]
  simp only [Node.children]
  rw [List.map_map]
  have h : (Node.id ∘ fun a =>
      Node.mk a a NodeType.artist
        ((ts.filter (fun tr => tr.Artist == a)).map mkTrackNode) [] (some "root"))
      = fun a => a := by
    funext a
    rfl
  rw [h]
  simpa using nodup_distinctInOrder (ts.map Track.Artist)

/-- C7: the claim says the builder is total over any sequence of string
quadruples and raises no errors. Under the JavaScript semantics of the
plain object `artistMap` this is false of the code: an artist name that
is a property inherited from `Object.prototype` makes the lookup truthy
without an own entry, the create branch is skipped, and pushing onto the
`children` field of the inherited non-Node value throws a TypeError.
The faithful model errors at these concrete failing inputs, while on
inputs avoiding the inherited keys it agrees with the pure model
(`buildMindMapJS_agrees`), which does accept empty and malformed fields
and gives the empty input a root with zero children. -/
theorem C7_prototype_crash :
    buildMindMapJS [⟨"toString", "S", "1999", "Rock;Pop"⟩]
      = Except.error "TypeError: Cannot read properties of undefined (reading push)"
    ∧ buildMindMapJS [⟨"__proto__", "S", "1999", "Rock"⟩]
      = Except.error "TypeError: Cannot read properties of undefined (reading push)"
    ∧ buildMindMapJS [wRecord] = Except.ok (buildMindMap [wRecord])
    ∧ buildMindMapJS [] = Except.ok (buildMindMap [])
    ∧ (buildMindMap []).children = [] :=
  ⟨rfl, rfl, rfl, rfl, rfl⟩

/-- One iteration of the loop with the input sequence threaded through as
explicit state: the body reads the current record and updates the artist
map, leaving the input sequence component untouched. -/
def stepS (s : List Track × List (String × List Node)) (t : Track) :
    List Track × List (String × List Node) :=
  (s.1, step s.2 t)

/-- State-passing form of the builder, making the input sequence part of
the mutable state so that the frame condition on it can be stated: the
second component is the input sequence as left behind by the loop. -/
def buildMindMapS (tracks : List Track) : Node × List Track :=
  (Node.mk "root" "Music Library" NodeType.artist
    ((tracks.foldl stepS (tracks, [])).2.map
      (fun p => Node.mk p.1 p.1 NodeType.artist p.2 [] (some "root")))
    [] none,
   (tracks.foldl stepS (tracks, [])).1)

/-- The loop never writes the input sequence component of the state. -/
lemma foldl_stepS (l : List Track) (a : List Track) (b : List (String × List Node)) :
    l.foldl stepS (a, b) = (a, l.foldl step b) := by
  induction l generalizing b with
  | nil => rfl
  | cons t l ih =>
    rw [List.foldl_cons, List.foldl_cons]
    exact ih (step b t)

/-- C8: `buildMindMap` does not mutate its input: after the call the
input sequence is unchanged, element for element, and the returned tree
is the one the pure function describes. -/
theorem C8_no_input_mutation (ts : List Track) :
    (buildMindMapS ts).2 = ts ∧ (buildMindMapS ts).1 = buildMindMap ts := by
  unfold buildMindMapS buildMindMap
  rw [foldl_stepS]
  exact ⟨rfl, rfl⟩

/-- C9: for every record, the year node and each genre node hold exactly
one element in their `children` array, the back-reference to the owning
track node, and their parent reference is that same track node. -/
theorem C9_leaf_backrefs (t : Track) (g : String) :
    (yearNodeOf t).backChildren = [(mkTrackNode t).id]
    ∧ (yearNodeOf t).parent = some (mkTrackNode t).id
    ∧ (genreNodeOf t g).backChildren = [(mkTrackNode t).id]
    ∧ (genreNodeOf t g).parent = some (mkTrackNode t).id :=
  ⟨rfl, rfl, rfl, rfl⟩

/-- C10: for every input sequence, including ones mentioning an artist
literally named root or Music Library, the root node has identity
string root, label Music Library, kind artist and no parent reference,
independently of the input. -/
theorem C10_root_constant (ts : List Track) :
    (buildMindMap ts).id = "root"
    ∧ (buildMindMap ts).label = "Music Library"
    ∧ (buildMindMap ts).type = NodeType.artist
    ∧ (buildMindMap ts).parent = none :=
  ⟨rfl, rfl, rfl, rfl⟩
